import Mathlib

/-!
Shallow embedding of the finances-app core logic: balance calculation
(src/services/transactions.ts), the transaction filter/sort pipeline
(src/app/account/[id]/transactions.tsx), the currency-input formatter
(src/app/transaction-add.tsx and src/app/transaction-edit.tsx), the
error-handling paths of the transaction service, and the account
membership operations (src/services/accounts.ts).

Strings manipulated character by character are modelled as `List Char`;
strings only compared for equality are modelled as `String`.  JavaScript
numbers are modelled as exact rationals (`ℚ`) and timestamps in
milliseconds as `Int`.
-/

namespace FinApp

/-- A transaction record, as produced by the transaction service
(`src/services/transactions.ts`).  `date` is the Firestore timestamp in
milliseconds (`Timestamp.toMillis`); `none` models a missing/null date. -/
structure Tx where
  id : String
  accountId : String
  userId : String
  type : String
  amount : ℚ
  category : String
  paymentMethod : String
  date : Option Int
  note : Option String
deriving Repr, DecidableEq

/-- Embedding of `calculateBalance` (src/services/transactions.ts, lines
145-154): a `reduce` over the transaction list starting at 0, adding the
amount of `INCOME` records and subtracting the amount of `EXPENSE`
records; any other `type` value leaves the accumulator unchanged. -/
def calculateBalance (transactions : List Tx) : ℚ :=
  transactions.foldl
    (fun balance transaction =>
      if transaction.type = "INCOME" then balance + transaction.amount
      else if transaction.type = "EXPENSE" then balance - transaction.amount
      else balance)
    0

/-- Spec-side reading of the balance contract: the sum of the amounts of
the INCOME transactions. -/
def incomeSum (transactions : List Tx) : ℚ :=
  ((transactions.filter (fun t => t.type = "INCOME")).map Tx.amount).sum

/-- Spec-side reading of the balance contract: the sum of the amounts of
the EXPENSE transactions. -/
def expenseSum (transactions : List Tx) : ℚ :=
  ((transactions.filter (fun t => t.type = "EXPENSE")).map Tx.amount).sum

/-- Result of the currency-input formatter: the display string and the
canonical numeric (raw) value. -/
structure FormatResult where
  formatted : List Char
  raw : ℚ
deriving Repr, DecidableEq

/-- ASCII whitespace, for the `value.trim()` emptiness check. -/
def isWsChar (c : Char) : Bool :=
  c == ' ' || c == '\t' || c == '\n' || c == '\r'

/-- Models `value.replace(/[^0-9]/g, '')`: keep only decimal digits. -/
def filterDigits (v : List Char) : List Char :=
  v.filter Char.isDigit

/-- Numeric value of a digit character (its code point minus 48). -/
def charToDigitVal (c : Char) : Nat :=
  c.toNat - 48

/-- Models `parseInt(s, 10)` on a non-empty all-digit string, with exact
arithmetic in place of IEEE doubles. -/
def parseDigits (s : List Char) : Nat :=
  s.foldl (fun acc c => acc * 10 + charToDigitVal c) 0

/-- The decimal digit character for a value below 10. -/
def digitToChar : Nat → Char
  | 0 => '0'
  | 1 => '1'
  | 2 => '2'
  | 3 => '3'
  | 4 => '4'
  | 5 => '5'
  | 6 => '6'
  | 7 => '7'
  | 8 => '8'
  | 9 => '9'
  | _ => '*'

/-- Decimal digit characters of a positive number, least significant
first; the first argument is structural fuel (`n` itself suffices). -/
def natDigitsAux : Nat → Nat → List Char
  | 0, _ => []
  | _ + 1, 0 => []
  | fuel + 1, n + 1 => digitToChar ((n + 1) % 10) :: natDigitsAux fuel ((n + 1) / 10)

/-- Decimal digit string of a natural number, most significant first. -/
def natDigits (n : Nat) : List Char :=
  if n = 0 then ['0'] else (natDigitsAux n n).reverse

/-- Grouping helper: the input is a digit string least-significant-first;
insert `sep` after every third character. -/
def group3Aux (sep : Char) : List Char → List Char
  | [] => []
  | [a] => [a]
  | [a, b] => [a, b]
  | [a, b, c] => [a, b, c]
  | a :: b :: c :: d :: rest => a :: b :: c :: sep :: group3Aux sep (d :: rest)

/-- Models `n.toLocaleString(locale)` for a non-negative integer `n`:
decimal digits grouped in threes with the locale's group separator
(`'.'` for the de-DE and es-CO locales used by the code, `','` for
en-US). -/
def groupThousands (sep : Char) (n : Nat) : List Char :=
  (group3Aux sep (natDigits n).reverse).reverse

/-- Models `value.split(sep)[0]`: the run before the first separator. -/
def splitPart0 (sep : Char) (v : List Char) : List Char :=
  v.takeWhile (fun c => c != sep)

/-- Models `value.split(sep)[1]` when `sep` occurs in `value`: the run
strictly between the first and second separators. -/
def splitPart1 (sep : Char) (v : List Char) : List Char :=
  ((v.dropWhile (fun c => c != sep)).tail).takeWhile (fun c => c != sep)

/-- Models the guard `!value || value.trim().length === 0`. -/
def isBlankInput (v : List Char) : Bool :=
  v.isEmpty || (v.filter (fun c => !(isWsChar c))).isEmpty

/-- Embedding of `formatCurrencyInput` from src/app/transaction-add.tsx
(lines 112-182).  COP: digits only, grouped with `'.'` (es-CO), integer
raw value.  EUR/USD: comma as decimal separator, fraction capped at two
digits, integer digits grouped with `'.'` (de-DE).  Any other currency
falls through to the final branch, which parses with `'.'` as the
decimal separator and groups with `','` (en-US). -/
def formatCurrencyInputAdd (value : List Char) (currency : String) : FormatResult :=
  if isBlankInput value then ⟨[], 0⟩
  else if currency = "COP" then
    let numericValue := filterDigits value
    if numericValue.isEmpty then ⟨[], 0⟩
    else
      let integerValue := parseDigits numericValue
      ⟨groupThousands '.' integerValue, (integerValue : ℚ)⟩
  else if currency = "EUR" ∨ currency = "USD" then
    if value.contains ',' then
      let integerPart := filterDigits (splitPart0 ',' value)
      let decimalPart := (filterDigits (splitPart1 ',' value)).take 2
      let integerValue := if integerPart.isEmpty then 0 else parseDigits integerPart
      let decimalValue : ℚ :=
        if decimalPart.isEmpty then 0 else (parseDigits decimalPart : ℚ) / 10 ^ decimalPart.length
      let formattedInteger := groupThousands '.' integerValue
      let formatted :=
        if decimalPart.isEmpty then formattedInteger ++ [',']
        else formattedInteger ++ [','] ++ decimalPart
      ⟨formatted, (integerValue : ℚ) + decimalValue⟩
    else
      let numericValue := filterDigits value
      if numericValue.isEmpty then ⟨[], 0⟩
      else
        let integerValue := parseDigits numericValue
        ⟨groupThousands '.' integerValue, (integerValue : ℚ)⟩
  else
    if value.contains '.' then
      let integerPart := filterDigits (splitPart0 '.' value)
      let decimalPart := (filterDigits (splitPart1 '.' value)).take 2
      let integerValue := if integerPart.isEmpty then 0 else parseDigits integerPart
      let decimalValue : ℚ :=
        if decimalPart.isEmpty then 0 else (parseDigits decimalPart : ℚ) / 10 ^ decimalPart.length
      let formattedInteger := groupThousands ',' integerValue
      let formatted :=
        if decimalPart.isEmpty then formattedInteger ++ ['.']
        else formattedInteger ++ ['.'] ++ decimalPart
      ⟨formatted, (integerValue : ℚ) + decimalValue⟩
    else
      let numericValue := filterDigits value
      if numericValue.isEmpty then ⟨[], 0⟩
      else
        let integerValue := parseDigits numericValue
        ⟨groupThousands ',' integerValue, (integerValue : ℚ)⟩

/-- Exponent multiplier of a parseFloat literal tail (`e`/`E`, optional
sign, digits); anything else multiplies by 1. -/
def expMultiplier (s : List Char) : ℚ :=
  match s with
  | 'e' :: '-' :: d =>
    if (d.takeWhile Char.isDigit).isEmpty then 1
    else ((10 : ℚ) ^ parseDigits (d.takeWhile Char.isDigit))⁻¹
  | 'E' :: '-' :: d =>
    if (d.takeWhile Char.isDigit).isEmpty then 1
    else ((10 : ℚ) ^ parseDigits (d.takeWhile Char.isDigit))⁻¹
  | 'e' :: '+' :: d =>
    if (d.takeWhile Char.isDigit).isEmpty then 1
    else (10 : ℚ) ^ parseDigits (d.takeWhile Char.isDigit)
  | 'E' :: '+' :: d =>
    if (d.takeWhile Char.isDigit).isEmpty then 1
    else (10 : ℚ) ^ parseDigits (d.takeWhile Char.isDigit)
  | 'e' :: d =>
    if (d.takeWhile Char.isDigit).isEmpty then 1
    else (10 : ℚ) ^ parseDigits (d.takeWhile Char.isDigit)
  | 'E' :: d =>
    if (d.takeWhile Char.isDigit).isEmpty then 1
    else (10 : ℚ) ^ parseDigits (d.takeWhile Char.isDigit)
  | _ => 1

/-- Unsigned decimal mantissa of a parseFloat literal: digits, optional
point, fraction digits; `none` when no digit is found. -/
def parseUnsignedDec (s : List Char) : Option (ℚ × List Char) :=
  let ip := s.takeWhile Char.isDigit
  let rest := s.dropWhile Char.isDigit
  match rest with
  | '.' :: r =>
    let fp := r.takeWhile Char.isDigit
    if ip.isEmpty ∧ fp.isEmpty then none
    else
      some ((parseDigits ip : ℚ) +
        (if fp.isEmpty then 0 else (parseDigits fp : ℚ) / 10 ^ fp.length),
        r.dropWhile Char.isDigit)
  | _ => if ip.isEmpty then none else some ((parseDigits ip : ℚ), rest)

/-- Unsigned part of `parseFloat(v) || 0`: an unparseable mantissa is NaN
in JavaScript, which `|| 0` turns into 0. -/
def jsParseFloatUnsigned (s : List Char) : ℚ :=
  match parseUnsignedDec s with
  | none => 0
  | some (m, rest) => m * expMultiplier rest

/-- Modelled from the host primitive: `parseFloat(v) || 0`, restricted to
finite decimal/exponent literals with exact rational arithmetic; the
`Infinity` literal and IEEE rounding are outside the model. -/
def jsParseFloat (v : List Char) : ℚ :=
  match v.dropWhile isWsChar with
  | '-' :: r => -(jsParseFloatUnsigned r)
  | '+' :: r => jsParseFloatUnsigned r
  | s => jsParseFloatUnsigned s

/-- Embedding of `formatCurrencyInput` from src/app/transaction-edit.tsx
(lines 156-197).  Identical to the transaction-add version on COP and
EUR/USD, but any other currency falls back to
`{ formatted: value, raw: parseFloat(value) || 0 }`. -/
def formatCurrencyInputEdit (value : List Char) (currency : String) : FormatResult :=
  if isBlankInput value then ⟨[], 0⟩
  else if currency = "COP" then
    let numericValue := filterDigits value
    if numericValue.isEmpty then ⟨[], 0⟩
    else
      let integerValue := parseDigits numericValue
      ⟨groupThousands '.' integerValue, (integerValue : ℚ)⟩
  else if currency = "EUR" ∨ currency = "USD" then
    if value.contains ',' then
      let integerPart := filterDigits (splitPart0 ',' value)
      let decimalPart := (filterDigits (splitPart1 ',' value)).take 2
      let integerValue := if integerPart.isEmpty then 0 else parseDigits integerPart
      let decimalValue : ℚ :=
        if decimalPart.isEmpty then 0 else (parseDigits decimalPart : ℚ) / 10 ^ decimalPart.length
      let formattedInteger := groupThousands '.' integerValue
      let formatted :=
        if decimalPart.isEmpty then formattedInteger ++ [',']
        else formattedInteger ++ [','] ++ decimalPart
      ⟨formatted, (integerValue : ℚ) + decimalValue⟩
    else
      let numericValue := filterDigits value
      if numericValue.isEmpty then ⟨[], 0⟩
      else
        let integerValue := parseDigits numericValue
        ⟨groupThousands '.' integerValue, (integerValue : ℚ)⟩
  else
    ⟨value, jsParseFloat value⟩

/-- Sort key used by the transaction list and the real-time listener:
`t.date?.toMillis() || 0`, i.e. a missing/null date is treated as
timestamp 0 (the Unix epoch). -/
def dateKey (t : Tx) : Int :=
  t.date.getD 0

/-- Embedding of the comparator in the `filtered.sort` call of
src/app/account/[id]/transactions.tsx (lines 211-233): `newest` and
`oldest` compare `date?.toMillis() || 0`, `highest` and `lowest` compare
amounts, and any other mode returns 0. -/
def sortCmp (sortOrder : String) (a b : Tx) : ℚ :=
  if sortOrder = "newest" then ((dateKey b - dateKey a : Int) : ℚ)
  else if sortOrder = "oldest" then ((dateKey a - dateKey b : Int) : ℚ)
  else if sortOrder = "highest" then b.amount - a.amount
  else if sortOrder = "lowest" then a.amount - b.amount
  else 0

/-- `Array.prototype.sort` with a consistent comparator is a stable sort
placing `a` no later than `b` whenever `cmp a b ≤ 0`; modelled by the
stable `List.mergeSort`. -/
def sortTransactions (sortOrder : String) (ts : List Tx) : List Tx :=
  ts.mergeSort (fun a b => sortCmp sortOrder a b ≤ 0)

/-- Day index of a timestamp in milliseconds.  Models
`toDate()` followed by `setHours(0, 0, 0, 0)` at day granularity with a
fixed timezone offset of zero. -/
def dayOfMillis (ms : Int) : Int :=
  Int.fdiv ms 86400000

/-- The filter criteria saved by src/app/account/[id]/transactions-filter.tsx
(`handleApplyFilters`, lines 230-240).  `filterStartDate` and
`filterEndDate` are modelled as day indices (the code normalizes both
sides of the comparison to day boundaries with `setHours`).
`filterPaymentMethod` is part of the saved record (line 238). -/
structure TxFilters where
  filterType : String
  filterCategory : String
  filterUserId : String
  filterMinAmount : Option ℚ
  filterMaxAmount : Option ℚ
  filterStartDate : Option Int
  filterEndDate : Option Int
  filterPaymentMethod : String
  sortOrder : String
deriving Repr, DecidableEq

/-- Embedding of the `filteredTransactions` memo of
src/app/account/[id]/transactions.tsx (lines 159-235): the sequence of
`filter` passes (type, category, user for GROUP accounts, minimum
amount, maximum amount, start date, end date) followed by the sort.
The function mirrors the source: no pass reads `filterPaymentMethod`. -/
def applyFilters (accountType : String) (f : TxFilters) (transactions : List Tx) : List Tx :=
  let filtered := transactions
  let filtered :=
    if f.filterType ≠ "ALL" then filtered.filter (fun t => t.type = f.filterType) else filtered
  let filtered :=
    if f.filterCategory ≠ "ALL" then
      filtered.filter (fun t => t.category = f.filterCategory)
    else filtered
  let filtered :=
    if accountType = "GROUP" ∧ f.filterUserId ≠ "ALL" then
      filtered.filter (fun t => t.userId = f.filterUserId)
    else filtered
  let filtered :=
    match f.filterMinAmount with
    | some m => if m > 0 then filtered.filter (fun t => t.amount ≥ m) else filtered
    | none => filtered
  let filtered :=
    match f.filterMaxAmount with
    | some m => if m > 0 then filtered.filter (fun t => t.amount ≤ m) else filtered
    | none => filtered
  let filtered :=
    match f.filterStartDate with
    | some startDay =>
      filtered.filter (fun t =>
        match t.date with
        | none => false
        | some ms => startDay ≤ dayOfMillis ms)
    | none => filtered
  let filtered :=
    match f.filterEndDate with
    | some endDay =>
      filtered.filter (fun t =>
        match t.date with
        | none => false
        | some ms => dayOfMillis ms ≤ endDay)
    | none => filtered
  sortTransactions f.sortOrder filtered

/-- A raw transaction document as stored in the backend
(`docSnapshot.data()`): fields the conversion guards with `||` defaults
are optional. -/
structure TxDoc where
  accountId : Option String
  userId : String
  type : String
  amount : ℚ
  category : String
  paymentMethod : Option String
  date : Option Int
  note : Option String
deriving Repr, DecidableEq

/-- Embedding of the document-to-transaction mapping shared by
`getAccountTransactions` and `subscribeToAccountTransactions`
(src/services/transactions.ts, lines 112-126 and 179-193):
`accountId` falls back to the path parameter, `paymentMethod` defaults
to `CARD`, `note` falls back to `undefined`. -/
def docToTx (accountIdParam : String) (docId : String) (d : TxDoc) : Tx :=
  { id := docId
    accountId := d.accountId.getD accountIdParam
    userId := d.userId
    type := d.type
    amount := d.amount
    category := d.category
    paymentMethod := d.paymentMethod.getD "CARD"
    date := d.date
    note := d.note }

/-- The comparator of the client-side sort in
`subscribeToAccountTransactions` (src/services/transactions.ts, lines
196-200): descending by `date?.toMillis() || 0`. -/
def subscribeSortLe (a b : Tx) : Bool :=
  dateKey b - dateKey a ≤ 0

/-- Embedding of the snapshot handler of `subscribeToAccountTransactions`
(src/services/transactions.ts, lines 178-205): map the documents, sort
date-descending on the client, then `slice(0, limitCount)`; the result
is what the callback receives. -/
def subscribeSnapshotDeliver (accountIdParam : String) (docs : List (String × TxDoc))
    (limitCount : Nat) : List Tx :=
  ((docs.map (fun p => docToTx accountIdParam p.1 p.2)).mergeSort subscribeSortLe).take limitCount

/-- A backend error as observed by the catch/error handlers:
`error?.code` and `error?.message`. -/
structure FsError where
  code : Option String
  message : Option String
deriving Repr, DecidableEq

/-- Does `needle` occur at the start of `hay`? -/
def startsWithSub : List Char → List Char → Bool
  | _, [] => true
  | [], _ :: _ => false
  | h :: hs, n :: ns => h == n && startsWithSub hs ns

/-- Models `hay.includes(needle)`: contiguous substring test. -/
def hasSubstr : List Char → List Char → Bool
  | [], needle => needle.isEmpty
  | h :: t, needle => startsWithSub (h :: t) needle || hasSubstr t needle

/-- The permission guard of both error handlers
(src/services/transactions.ts, lines 129 and 209):
`error?.code === 'permission-denied' || error?.message?.includes('permission')`. -/
def isPermissionError (e : FsError) : Bool :=
  e.code == some "permission-denied" ||
    (match e.message with
     | some m => hasSubstr m.data "permission".data
     | none => false)

/-- Embedding of `getAccountTransactions` (src/services/transactions.ts,
lines 97-137) as a function of the backend response: a successful query
maps the documents; the catch block returns `[]` for permission errors
(lines 129-132) and also `[]` for any other error (lines 133-135) —
errors are never re-thrown. -/
def getAccountTransactionsResult (accountIdParam : String)
    (resp : Except FsError (List (String × TxDoc))) : List Tx :=
  match resp with
  | .ok docs => docs.map (fun p => docToTx accountIdParam p.1 p.2)
  | .error e => if isPermissionError e then [] else []

/-- Embedding of the error handler of `subscribeToAccountTransactions`
(src/services/transactions.ts, lines 207-216): the value passed to the
callback; both the permission branch and the generic branch pass `[]`. -/
def subscribeErrorCallbackArg (e : FsError) : List Tx :=
  if isPermissionError e then [] else []

/-- The account fields the membership operations read and write
(src/services/accounts.ts). -/
structure AccountState where
  ownerId : String
  type : String
  memberIds : List String
deriving Repr, DecidableEq

/-- Embedding of `createAccount` (src/services/accounts.ts, lines
239-274 of the joinCode variant): `ownerId` is the creating user and
`memberIds` is `[userId]`. -/
def createAccountState (accountType : String) (userId : String) : AccountState :=
  { ownerId := userId, type := accountType, memberIds := [userId] }

/-- Embedding of `joinAccount` (src/services/accounts.ts, lines
319-355): an existing member is rejected, otherwise the user is
appended to `memberIds`; `ownerId` is never written. -/
def joinAccountState (s : AccountState) (userId : String) : Except String AccountState :=
  if userId ∈ s.memberIds then .error "already-member"
  else .ok { s with memberIds := s.memberIds ++ [userId] }

/-- Embedding of `joinAccountByCode` (src/services/accounts.ts, lines
364-383): rejects non-GROUP accounts, then delegates to `joinAccount`. -/
def joinAccountByCodeState (s : AccountState) (userId : String) : Except String AccountState :=
  if s.type ≠ "GROUP" then .error "not-a-group"
  else joinAccountState s userId

/-- The account states reachable through the account operations:
`createAccount` followed by any sequence of successful `joinAccount` /
`joinAccountByCode` calls. -/
inductive AccountReachable : AccountState → Prop
  | created (accountType userId : String) :
      AccountReachable (createAccountState accountType userId)
  | joined (s : AccountState) (userId : String) (next : AccountState) :
      AccountReachable s → joinAccountState s userId = .ok next → AccountReachable next
  | joinedByCode (s : AccountState) (userId : String) (next : AccountState) :
      AccountReachable s → joinAccountByCodeState s userId = .ok next → AccountReachable next

/-- Spec-side reading of the EUR/USD contract (§4.2 of the spec): split
the input at the comma, cap the fractional part at 2 digits, and compute
`integer + fractional / 10 ^ digits`. -/
def specEurUsdRaw (v : List Char) : ℚ :=
  let intDigits := filterDigits (splitPart0 ',' v)
  let fracDigits := (filterDigits (splitPart1 ',' v)).take 2
  (parseDigits intDigits : ℚ) + (parseDigits fracDigits : ℚ) / 10 ^ fracDigits.length

/-- Canonical comma input for a raw value of `n` cents: the integer part
followed by a comma and exactly two fraction digits. -/
def centsInput (n : Nat) : List Char :=
  natDigits (n / 100) ++ [','] ++ [digitToChar (n % 100 / 10), digitToChar (n % 100 % 10)]

/-- Sample transaction used in concrete instances. -/
def mkTx (ident : String) (type : String) (amount : ℚ) (paymentMethod : String)
    (date : Option Int) : Tx :=
  { id := ident, accountId := "acc1", userId := "user1", type := type, amount := amount,
    category := "general", paymentMethod := paymentMethod, date := date, note := none }

/-- Filter record with every criterion inactive except the payment
method, which is set to CARD, and the default `newest` sort. -/
def cardOnlyFilters : TxFilters :=
  { filterType := "ALL", filterCategory := "ALL", filterUserId := "ALL",
    filterMinAmount := none, filterMaxAmount := none,
    filterStartDate := none, filterEndDate := none,
    filterPaymentMethod := "CARD", sortOrder := "newest" }

end FinApp

namespace FinApp

theorem charToDigitVal_digitToChar {d : Nat} (h : d < 10) :
    charToDigitVal (digitToChar d) = d := by
  interval_cases d <;> rfl

theorem digitToChar_isDigit {d : Nat} (h : d < 10) :
    (digitToChar d).isDigit = true := by
  interval_cases d <;> rfl

theorem parseDigits_nil : parseDigits [] = 0 := rfl

theorem parseDigits_append_single (l : List Char) (c : Char) :
    parseDigits (l ++ [c]) = parseDigits l * 10 + charToDigitVal c := by
  simp [parseDigits, List.foldl_append]

theorem natDigitsAux_parse : ∀ (fuel n : Nat), n ≤ fuel →
    parseDigits (natDigitsAux fuel n).reverse = n
  | 0, n, h => by
    interval_cases n
    rfl
  | fuel + 1, 0, _ => rfl
  | fuel + 1, n + 1, h => by
    have hdiv : (n + 1) / 10 ≤ fuel := by
      have := Nat.div_lt_self (Nat.succ_pos n) (by norm_num : 1 < 10)
      omega
    have ih := natDigitsAux_parse fuel ((n + 1) / 10) hdiv
    have hmod : (n + 1) % 10 < 10 := Nat.mod_lt _ (by norm_num)
    simp only [natDigitsAux, List.reverse_cons]
    rw [parseDigits_append_single, ih, charToDigitVal_digitToChar hmod]
    omega

theorem natDigitsAux_isDigit : ∀ (fuel n : Nat), ∀ c ∈ natDigitsAux fuel n,
    c.isDigit = true
  | 0, _, c, hc => by simp [natDigitsAux] at hc
  | fuel + 1, 0, c, hc => by simp [natDigitsAux] at hc
  | fuel + 1, n + 1, c, hc => by
    simp only [natDigitsAux, List.mem_cons] at hc
    rcases hc with h | h
    · subst h
      exact digitToChar_isDigit (Nat.mod_lt _ (by norm_num))
    · exact natDigitsAux_isDigit fuel ((n + 1) / 10) c h

theorem parseDigits_natDigits (n : Nat) : parseDigits (natDigits n) = n := by
  unfold natDigits
  by_cases h : n = 0
  · subst h; rfl
  · simp only [h, if_false]
    exact natDigitsAux_parse n n le_rfl

theorem natDigits_isDigit {n : Nat} : ∀ c ∈ natDigits n, c.isDigit = true := by
  intro c hc
  unfold natDigits at hc
  by_cases h : n = 0
  · simp [h] at hc
    subst hc; rfl
  · simp only [h, if_false, List.mem_reverse] at hc
    exact natDigitsAux_isDigit n n c hc

theorem natDigits_ne_nil (n : Nat) : natDigits n ≠ [] := by
  unfold natDigits
  by_cases h : n = 0
  · simp [h]
  · simp only [h, if_false]
    obtain ⟨m, rfl⟩ := Nat.exists_eq_succ_of_ne_zero h
    simp [natDigitsAux]

theorem mem_group3Aux {sep : Char} : ∀ {l : List Char} {c : Char},
    c ∈ group3Aux sep l → c = sep ∨ c ∈ l
  | [], c, hc => by simp [group3Aux] at hc
  | [a], c, hc => by
    simp [group3Aux] at hc
    simp [hc]
  | [a, b], c, hc => by
    simp [group3Aux] at hc
    rcases hc with h | h <;> simp [h]
  | [a, b, e], c, hc => by
    simp [group3Aux] at hc
    rcases hc with h | h | h <;> simp [h]
  | a :: b :: e :: d :: rest, c, hc => by
    simp only [group3Aux, List.mem_cons] at hc
    rcases hc with h | h | h | h | h
    · right; simp [h]
    · right; simp [h]
    · right; simp [h]
    · left; exact h
    · rcases mem_group3Aux h with h' | h'
      · left; exact h'
      · right; simp only [List.mem_cons] at h' ⊢; tauto

theorem filter_isDigit_group3Aux {sep : Char} (hsep : sep.isDigit = false) :
    ∀ {l : List Char}, (∀ c ∈ l, c.isDigit = true) →
      (group3Aux sep l).filter Char.isDigit = l
  | [], _ => rfl
  | [a], h => by
    simp [group3Aux, List.filter, h a (by simp)]
  | [a, b], h => by
    simp [group3Aux, List.filter, h a (by simp), h b (by simp)]
  | [a, b, e], h => by
    simp [group3Aux, List.filter, h a (by simp), h b (by simp), h e (by simp)]
  | a :: b :: e :: d :: rest, h => by
    have ih := filter_isDigit_group3Aux hsep
      (l := d :: rest) (fun c hc => h c (by simp only [List.mem_cons] at hc ⊢; tauto))
    simp only [group3Aux, List.filter_cons, h a (by simp), h b (by simp), h e (by simp),
      hsep, if_true, if_false, cond_true, cond_false]
    rw [ih]
    simp

theorem group3Aux_ne_nil {sep : Char} {l : List Char} (h : l ≠ []) :
    group3Aux sep l ≠ [] := by
  match l with
  | [] => exact absurd rfl h
  | [a] => simp [group3Aux]
  | [a, b] => simp [group3Aux]
  | [a, b, c] => simp [group3Aux]
  | a :: b :: c :: d :: rest => simp [group3Aux]

theorem filterDigits_groupThousands {sep : Char} (hsep : sep.isDigit = false) (n : Nat) :
    filterDigits (groupThousands sep n) = natDigits n := by
  unfold filterDigits groupThousands
  rw [List.filter_reverse]
  rw [filter_isDigit_group3Aux hsep]
  · exact List.reverse_reverse _
  · intro c hc
    exact natDigits_isDigit c (List.mem_reverse.mp hc)

theorem parseDigits_filterDigits_groupThousands {sep : Char} (hsep : sep.isDigit = false)
    (n : Nat) : parseDigits (filterDigits (groupThousands sep n)) = n := by
  rw [filterDigits_groupThousands hsep, parseDigits_natDigits]

theorem mem_groupThousands {sep c : Char} {n : Nat} (hc : c ∈ groupThousands sep n) :
    c = sep ∨ c.isDigit = true := by
  unfold groupThousands at hc
  rw [List.mem_reverse] at hc
  rcases mem_group3Aux hc with h | h
  · exact Or.inl h
  · exact Or.inr (natDigits_isDigit c (List.mem_reverse.mp h))

theorem groupThousands_ne_nil (sep : Char) (n : Nat) : groupThousands sep n ≠ [] := by
  unfold groupThousands
  simp only [ne_eq, List.reverse_eq_nil_iff]
  exact group3Aux_ne_nil (by simp [natDigits_ne_nil n])

theorem takeWhile_bne_all {sep : Char} : ∀ {xs : List Char},
    (∀ c ∈ xs, (c == sep) = false) → xs.takeWhile (fun c => c != sep) = xs
  | [], _ => rfl
  | x :: xs, h => by
    have hx : (x != sep) = true := by simp [bne, h x (by simp)]
    simp only [List.takeWhile_cons, hx, if_true]
    rw [takeWhile_bne_all (fun c hc => h c (by simp [hc]))]

theorem takeWhile_bne_append {sep : Char} {xs rest : List Char}
    (h : ∀ c ∈ xs, (c == sep) = false) :
    (xs ++ sep :: rest).takeWhile (fun c => c != sep) = xs := by
  induction xs with
  | nil => simp [List.takeWhile_cons]
  | cons x xs ih =>
    have hx : (x != sep) = true := by simp [bne, h x (by simp)]
    simp only [List.cons_append, List.takeWhile_cons, hx, if_true]
    rw [ih (fun c hc => h c (by simp [hc]))]

theorem dropWhile_bne_append {sep : Char} {xs rest : List Char}
    (h : ∀ c ∈ xs, (c == sep) = false) :
    (xs ++ sep :: rest).dropWhile (fun c => c != sep) = sep :: rest := by
  induction xs with
  | nil => simp [List.dropWhile_cons]
  | cons x xs ih =>
    have hx : (x != sep) = true := by simp [bne, h x (by simp)]
    simp only [List.cons_append, List.dropWhile_cons, hx, if_true]
    exact ih (fun c hc => h c (by simp [hc]))

theorem splitPart0_append {sep : Char} {xs rest : List Char}
    (h : ∀ c ∈ xs, (c == sep) = false) :
    splitPart0 sep (xs ++ sep :: rest) = xs :=
  takeWhile_bne_append h

theorem splitPart1_append {sep : Char} {xs rest : List Char}
    (h : ∀ c ∈ xs, (c == sep) = false) (h' : ∀ c ∈ rest, (c == sep) = false) :
    splitPart1 sep (xs ++ sep :: rest) = rest := by
  unfold splitPart1
  rw [dropWhile_bne_append h]
  simp only [List.tail_cons]
  exact takeWhile_bne_all h'

theorem isBlankInput_eq_false_of_mem {v : List Char} {c : Char}
    (hc : c ∈ v) (hw : isWsChar c = false) : isBlankInput v = false := by
  unfold isBlankInput
  have h1 : v.isEmpty = false := by
    cases v with
    | nil => simp at hc
    | cons a l => rfl
  have h2 : (v.filter (fun c => !(isWsChar c))).isEmpty = false := by
    have : c ∈ v.filter (fun c => !(isWsChar c)) := by
      rw [List.mem_filter]
      exact ⟨hc, by simp [hw]⟩
    cases hf : v.filter (fun c => !(isWsChar c)) with
    | nil => rw [hf] at this; simp at this
    | cons a l => rfl
  simp [h1, h2]

theorem isDigit_ne_char {c sep : Char} (hd : c.isDigit = true)
    (hsep : sep.isDigit = false) : (c == sep) = false := by
  cases h : c == sep
  · rfl
  · rw [beq_iff_eq] at h
    subst h
    rw [hd] at hsep
    exact absurd hsep (by simp)

theorem isDigit_not_ws {c : Char} (hd : c.isDigit = true) : isWsChar c = false := by
  unfold isWsChar
  cases hsp : c == ' ' <;> cases htb : c == '\t' <;> cases hnl : c == '\n' <;>
    cases hcr : c == '\r' <;>
    first
      | rfl
      | (first
          | (rw [beq_iff_eq] at hsp; subst hsp; simp [Char.isDigit] at hd)
          | (rw [beq_iff_eq] at htb; subst htb; simp [Char.isDigit] at hd)
          | (rw [beq_iff_eq] at hnl; subst hnl; simp [Char.isDigit] at hd)
          | (rw [beq_iff_eq] at hcr; subst hcr; simp [Char.isDigit] at hd))

theorem comma_isDigit_false : (','.isDigit) = false := rfl

theorem dot_isDigit_false : ('.'.isDigit) = false := rfl

theorem comma_not_ws : isWsChar ',' = false := rfl

theorem contains_eq_true_iff (v : List Char) (c : Char) : v.contains c = true ↔ c ∈ v := by
  simp [List.contains, List.elem_iff]

theorem formatAdd_comma_eq (v : List Char) (currency : String)
    (hb : isBlankInput v = false) (hcop : currency ≠ "COP")
    (hcur : currency = "EUR" ∨ currency = "USD") (hc : v.contains ',' = true) :
    formatCurrencyInputAdd v currency =
      ⟨(if ((filterDigits (splitPart1 ',' v)).take 2).isEmpty then
          groupThousands '.'
            (if (filterDigits (splitPart0 ',' v)).isEmpty then 0
             else parseDigits (filterDigits (splitPart0 ',' v))) ++ [',']
        else
          groupThousands '.'
            (if (filterDigits (splitPart0 ',' v)).isEmpty then 0
             else parseDigits (filterDigits (splitPart0 ',' v))) ++ [','] ++
            (filterDigits (splitPart1 ',' v)).take 2),
       ((if (filterDigits (splitPart0 ',' v)).isEmpty then 0
         else parseDigits (filterDigits (splitPart0 ',' v)) : Nat) : ℚ) +
        (if ((filterDigits (splitPart1 ',' v)).take 2).isEmpty then 0
         else (parseDigits ((filterDigits (splitPart1 ',' v)).take 2) : ℚ) /
           10 ^ ((filterDigits (splitPart1 ',' v)).take 2).length)⟩ := by
  unfold formatCurrencyInputAdd
  rw [if_neg (by simp [hb]), if_neg hcop, if_pos hcur, if_pos hc]

theorem formatEdit_comma_eq (v : List Char) (currency : String)
    (hb : isBlankInput v = false) (hcop : currency ≠ "COP")
    (hcur : currency = "EUR" ∨ currency = "USD") (hc : v.contains ',' = true) :
    formatCurrencyInputEdit v currency =
      ⟨(if ((filterDigits (splitPart1 ',' v)).take 2).isEmpty then
          groupThousands '.'
            (if (filterDigits (splitPart0 ',' v)).isEmpty then 0
             else parseDigits (filterDigits (splitPart0 ',' v))) ++ [',']
        else
          groupThousands '.'
            (if (filterDigits (splitPart0 ',' v)).isEmpty then 0
             else parseDigits (filterDigits (splitPart0 ',' v))) ++ [','] ++
            (filterDigits (splitPart1 ',' v)).take 2),
       ((if (filterDigits (splitPart0 ',' v)).isEmpty then 0
         else parseDigits (filterDigits (splitPart0 ',' v)) : Nat) : ℚ) +
        (if ((filterDigits (splitPart1 ',' v)).take 2).isEmpty then 0
         else (parseDigits ((filterDigits (splitPart1 ',' v)).take 2) : ℚ) /
           10 ^ ((filterDigits (splitPart1 ',' v)).take 2).length)⟩ := by
  unfold formatCurrencyInputEdit
  rw [if_neg (by simp [hb]), if_neg hcop, if_pos hcur, if_pos hc]

/-- C3: on every EUR or USD input containing a comma both formatters
treat the comma as the decimal separator: the raw value is the integer
part plus the (at most 2 digit) fractional part divided by the matching
power of ten, a trailing comma is preserved in the formatted string when
no fraction digits follow, the transaction-add and transaction-edit
variants agree, and in particular input "12,5" yields raw value 12.5
while input "12," formats as "12," with raw value 12. -/
theorem C3_comma_decimal_separator :
    (∀ (v : List Char) (currency : String),
      (currency = "EUR" ∨ currency = "USD") → v.contains ',' = true →
        (formatCurrencyInputAdd v currency).raw = specEurUsdRaw v ∧
        formatCurrencyInputAdd v currency = formatCurrencyInputEdit v currency ∧
        ((filterDigits (splitPart1 ',' v)) = [] →
          (formatCurrencyInputAdd v currency).formatted.getLast? = some ',')) ∧
    formatCurrencyInputAdd "12,5".data "EUR" = ⟨"12,5".data, 25 / 2⟩ ∧
    formatCurrencyInputAdd "12,".data "EUR" = ⟨"12,".data, 12⟩ := by
  refine ⟨?_, ?_, ?_⟩
  case refine_2 =>
    rw [formatAdd_comma_eq _ _ (by decide) (by decide) (Or.inl rfl) (by decide)]
    rw [show filterDigits (splitPart0 ',' ("12,5".data)) = ['1', '2'] from by decide,
      show (filterDigits (splitPart1 ',' ("12,5".data))).take 2 = ['5'] from by decide,
      show parseDigits ['1', '2'] = 12 from by decide]
    simp only [List.isEmpty_cons, if_false, Bool.false_eq_true]
    rw [show groupThousands '.' 12 = ['1', '2'] from by decide,
      show parseDigits ['5'] = 5 from by decide]
    simp only [FormatResult.mk.injEq]
    constructor
    · decide
    · norm_num
  case refine_3 =>
    rw [formatAdd_comma_eq _ _ (by decide) (by decide) (Or.inl rfl) (by decide)]
    rw [show filterDigits (splitPart0 ',' ("12,".data)) = ['1', '2'] from by decide,
      show (filterDigits (splitPart1 ',' ("12,".data))).take 2 = ([] : List Char) from by decide,
      show parseDigits ['1', '2'] = 12 from by decide]
    simp only [List.isEmpty_nil, List.isEmpty_cons, if_true, if_false, Bool.false_eq_true]
    rw [show groupThousands '.' 12 = ['1', '2'] from by decide]
    simp only [FormatResult.mk.injEq]
    constructor
    · decide
    · norm_num
  intro v currency hcur hc
  have hmem : ',' ∈ v := (contains_eq_true_iff v ',').mp hc
  have hb : isBlankInput v = false := isBlankInput_eq_false_of_mem hmem comma_not_ws
  have hcop : currency ≠ "COP" := by
    rcases hcur with h | h <;> (subst h; decide)
  rw [formatAdd_comma_eq v currency hb hcop hcur hc,
    formatEdit_comma_eq v currency hb hcop hcur hc]
  refine ⟨?_, rfl, ?_⟩
  · simp only [specEurUsdRaw]
    by_cases h1 : (filterDigits (splitPart0 ',' v)).isEmpty
    · have h1' : filterDigits (splitPart0 ',' v) = [] := List.isEmpty_iff.mp h1
      by_cases h2 : ((filterDigits (splitPart1 ',' v)).take 2).isEmpty
      · have h2' : (filterDigits (splitPart1 ',' v)).take 2 = [] := List.isEmpty_iff.mp h2
        simp [h1, h2, h1', h2', parseDigits_nil]
      · simp [h1, h2, h1', parseDigits_nil]
    · by_cases h2 : ((filterDigits (splitPart1 ',' v)).take 2).isEmpty
      · have h2' : (filterDigits (splitPart1 ',' v)).take 2 = [] := List.isEmpty_iff.mp h2
        simp [h1, h2, h2', parseDigits_nil]
      · simp [h1, h2]
  · intro hdec
    have h2 : ((filterDigits (splitPart1 ',' v)).take 2).isEmpty = true := by
      simp [hdec]
    simp only [h2, if_true]
    exact List.getLast?_concat _

/-- Witness for C3 at the concrete input "7,25" with currency USD. -/
theorem C3_comma_decimal_separator_witness :
    ("7,25".data.contains ',') = true ∧
    (formatCurrencyInputAdd "7,25".data "USD").raw = specEurUsdRaw "7,25".data :=
  ⟨by decide, (C3_comma_decimal_separator.1 "7,25".data "USD" (Or.inr rfl) (by decide)).1⟩

theorem formatAdd_cop_eq (v : List Char) (hb : isBlankInput v = false)
    (hd : (filterDigits v).isEmpty = false) :
    formatCurrencyInputAdd v "COP" =
      ⟨groupThousands '.' (parseDigits (filterDigits v)),
        (parseDigits (filterDigits v) : ℚ)⟩ := by
  unfold formatCurrencyInputAdd
  rw [if_neg (by simp [hb]), if_pos rfl, if_neg (by simp [hd])]

/-- C6: for every COP input, `formatCurrencyInput` strips all non-digit
characters and parses the remainder as an unsigned integer (the raw
value); the formatted string carries exactly the decimal digits of that
integer, grouped with thousands separators, and contains no decimal
separator; a blank or all-non-digit input yields the empty formatted
string and raw value 0; input "1000000" yields raw value 1000000 and the
grouped string "1.000.000". -/
theorem C6_cop_integer_format :
    (∀ v : List Char, isBlankInput v = false → (filterDigits v).isEmpty = false →
      (formatCurrencyInputAdd v "COP").raw = (parseDigits (filterDigits v) : ℚ) ∧
      filterDigits ((formatCurrencyInputAdd v "COP").formatted) =
        natDigits (parseDigits (filterDigits v)) ∧
      ',' ∉ (formatCurrencyInputAdd v "COP").formatted) ∧
    (∀ v : List Char, isBlankInput v = true ∨ (filterDigits v).isEmpty = true →
      formatCurrencyInputAdd v "COP" = ⟨[], 0⟩) ∧
    (formatCurrencyInputAdd "1000000".data "COP").formatted = "1.000.000".data ∧
    (formatCurrencyInputAdd "1000000".data "COP").raw = 1000000 := by
  refine ⟨?_, ?_, ?_, ?_⟩
  · intro v hb hd
    rw [formatAdd_cop_eq v hb hd]
    refine ⟨rfl, filterDigits_groupThousands dot_isDigit_false _, ?_⟩
    intro hmem
    rcases mem_groupThousands hmem with h | h
    · exact absurd h (by decide)
    · exact absurd h (by decide)
  · intro v hv
    unfold formatCurrencyInputAdd
    rcases hv with h | h
    · rw [if_pos h]
    · by_cases hb : isBlankInput v = true
      · rw [if_pos hb]
      · rw [if_neg hb, if_pos rfl, if_pos h]
  · rw [formatAdd_cop_eq _ (by decide) (by decide),
      show parseDigits (filterDigits ("1000000".data)) = 1000000 from by decide]
    decide
  · rw [formatAdd_cop_eq _ (by decide) (by decide),
      show parseDigits (filterDigits ("1000000".data)) = 1000000 from by decide]
    norm_num

/-- Witness for C6 at the concrete COP input "2.500". -/
theorem C6_cop_integer_format_witness :
    isBlankInput ("2.500".data) = false ∧
    (formatCurrencyInputAdd "2.500".data "COP").raw =
      (parseDigits (filterDigits ("2.500".data)) : ℚ) :=
  ⟨by decide, (C6_cop_integer_format.1 "2.500".data (by decide) (by decide)).1⟩

/-- C4 counterexample: with currency "GBP" (not EUR/USD/COP) the
transaction-add formatter does not return the input unmodified: on input
"1234" it produces the en-US grouped string "1,234". -/
theorem C4_counterexample_add_gbp :
    (formatCurrencyInputAdd "1234".data "GBP").formatted = "1,234".data ∧
    "1,234".data ≠ "1234".data := by
  constructor
  · decide
  · decide

/-- C4 (amended): the parseFloat fallback for unrecognized currencies is
the behaviour of the transaction-edit formatter on non-blank input; the
transaction-add formatter has no such fallback — it treats every
unrecognized currency uniformly through its dot-decimal branch. -/
theorem C4_unrecognized_currency_fallback :
    (∀ (v : List Char) (currency : String),
      isBlankInput v = false →
      currency ≠ "EUR" → currency ≠ "USD" → currency ≠ "COP" →
        formatCurrencyInputEdit v currency = ⟨v, jsParseFloat v⟩) ∧
    (∀ (v : List Char) (c c' : String),
      c ≠ "EUR" → c ≠ "USD" → c ≠ "COP" →
      c' ≠ "EUR" → c' ≠ "USD" → c' ≠ "COP" →
        formatCurrencyInputAdd v c = formatCurrencyInputAdd v c') := by
  constructor
  · intro v currency hb hE hU hC
    unfold formatCurrencyInputEdit
    rw [if_neg (by simp [hb]), if_neg hC, if_neg (not_or.mpr ⟨hE, hU⟩)]
  · intro v c c' hE hU hC hE' hU' hC'
    unfold formatCurrencyInputAdd
    rw [if_neg hC, if_neg (not_or.mpr ⟨hE, hU⟩), if_neg hC', if_neg (not_or.mpr ⟨hE', hU'⟩)]

/-- Witness for C4's amended statement at input "5x" and currency GBP. -/
theorem C4_unrecognized_currency_fallback_witness :
    formatCurrencyInputEdit "5x".data "GBP" = ⟨"5x".data, jsParseFloat ("5x".data)⟩ :=
  C4_unrecognized_currency_fallback.1 "5x".data "GBP" (by decide) (by decide) (by decide)
    (by decide)

theorem filterDigits_of_all_digits {l : List Char} (h : ∀ c ∈ l, c.isDigit = true) :
    filterDigits l = l :=
  List.filter_eq_self.mpr h

theorem natDigits_comma_free {n : Nat} : ∀ c ∈ natDigits n, (c == ',') = false :=
  fun c hc => isDigit_ne_char (natDigits_isDigit c hc) comma_isDigit_false

theorem groupThousands_dot_comma_free {n : Nat} :
    ∀ c ∈ groupThousands '.' n, (c == ',') = false := by
  intro c hc
  rcases mem_groupThousands hc with h | h
  · subst h; decide
  · exact isDigit_ne_char h comma_isDigit_false

theorem parseDigits_two {a b : Nat} (ha : a < 10) (hb : b < 10) :
    parseDigits [digitToChar a, digitToChar b] = a * 10 + b := by
  simp [parseDigits, charToDigitVal_digitToChar ha, charToDigitVal_digitToChar hb]

theorem isEmpty_false_of_ne_nil {l : List Char} (h : l ≠ []) : l.isEmpty = false := by
  cases l with
  | nil => exact absurd rfl h
  | cons a t => rfl

/-- Evaluation of the comma branch on an input of the canonical shape
`xs ++ ',' :: two fraction digits`, where the digits of `xs` spell the
numeral of `I`. -/
theorem formatAdd_canonical (currency : String) (hcur : currency = "EUR" ∨ currency = "USD")
    (I : Nat) (xs : List Char) (hxs : ∀ c ∈ xs, (c == ',') = false)
    (hxsd : filterDigits xs = natDigits I) (d1 d2 : Nat) (h1 : d1 < 10) (h2 : d2 < 10) :
    formatCurrencyInputAdd (xs ++ ',' :: [digitToChar d1, digitToChar d2]) currency =
      ⟨groupThousands '.' I ++ ',' :: [digitToChar d1, digitToChar d2],
        (I : ℚ) + ((d1 * 10 + d2 : Nat) : ℚ) / 100⟩ := by
  have hmem : ',' ∈ xs ++ ',' :: [digitToChar d1, digitToChar d2] := by simp
  have hb := isBlankInput_eq_false_of_mem hmem comma_not_ws
  have hcop : currency ≠ "COP" := by rcases hcur with h | h <;> (subst h; decide)
  have hc : (xs ++ ',' :: [digitToChar d1, digitToChar d2]).contains ',' = true :=
    (contains_eq_true_iff _ _).mpr hmem
  rw [formatAdd_comma_eq _ currency hb hcop hcur hc]
  have hds : ∀ c ∈ [digitToChar d1, digitToChar d2], (c == ',') = false := by
    intro c hc'
    simp only [List.mem_cons, List.not_mem_nil, or_false] at hc'
    rcases hc' with h | h <;>
      (subst h; exact isDigit_ne_char (digitToChar_isDigit (by omega)) comma_isDigit_false)
  rw [splitPart0_append hxs, splitPart1_append hxs hds, hxsd]
  have hfds : filterDigits [digitToChar d1, digitToChar d2] = [digitToChar d1, digitToChar d2] := by
    refine filterDigits_of_all_digits ?_
    intro c hc'
    simp only [List.mem_cons, List.not_mem_nil, or_false] at hc'
    rcases hc' with h | h <;> (subst h; exact digitToChar_isDigit (by omega))
  rw [hfds]
  have htake : ([digitToChar d1, digitToChar d2] : List Char).take 2 =
      [digitToChar d1, digitToChar d2] := rfl
  rw [htake]
  rw [isEmpty_false_of_ne_nil (natDigits_ne_nil I)]
  simp only [List.isEmpty_cons, if_false, Bool.false_eq_true]
  rw [parseDigits_natDigits, parseDigits_two h1 h2]
  simp only [FormatResult.mk.injEq]
  constructor
  · simp
  · norm_num

theorem centsInput_eq (n : Nat) :
    centsInput n =
      natDigits (n / 100) ++ ',' ::
        [digitToChar (n % 100 / 10), digitToChar (n % 100 % 10)] := by
  simp [centsInput]

theorem cents_value (n : Nat) :
    ((n / 100 : Nat) : ℚ) + ((n % 100 / 10 * 10 + n % 100 % 10 : Nat) : ℚ) / 100 =
      (n : ℚ) / 100 := by
  have h1 : n % 100 / 10 * 10 + n % 100 % 10 = n % 100 := by omega
  have h2 : n / 100 * 100 + n % 100 = n := by omega
  rw [h1, eq_div_iff (by norm_num : (100 : ℚ) ≠ 0)]
  field_simp
  exact_mod_cast h2

/-- C7: round-trip identity of the currency-input formatter.  Every raw
value with at most two decimal digits is `n` cents for some natural `n`;
for EUR and USD the canonical comma input for `n` cents parses to raw
value `n/100` and re-parsing its formatted output yields the same raw
value; for COP every non-negative integer input parses to itself and
re-parsing the grouped formatted string yields the same raw value. -/
theorem C7_format_roundtrip :
    (∀ (n : Nat) (currency : String), currency = "EUR" ∨ currency = "USD" →
      (formatCurrencyInputAdd (centsInput n) currency).raw = (n : ℚ) / 100 ∧
      (formatCurrencyInputAdd ((formatCurrencyInputAdd (centsInput n) currency).formatted)
        currency).raw = (n : ℚ) / 100) ∧
    (∀ m : Nat,
      (formatCurrencyInputAdd (natDigits m) "COP").raw = (m : ℚ) ∧
      (formatCurrencyInputAdd ((formatCurrencyInputAdd (natDigits m) "COP").formatted)
        "COP").raw = (m : ℚ)) := by
  constructor
  · intro n currency hcur
    have hd1 : n % 100 / 10 < 10 := by omega
    have hd2 : n % 100 % 10 < 10 := by omega
    have hfirst := formatAdd_canonical currency hcur (n / 100) (natDigits (n / 100))
      natDigits_comma_free (filterDigits_of_all_digits natDigits_isDigit)
      (n % 100 / 10) (n % 100 % 10) hd1 hd2
    rw [centsInput_eq, hfirst]
    have hsecond := formatAdd_canonical currency hcur (n / 100) (groupThousands '.' (n / 100))
      groupThousands_dot_comma_free (filterDigits_groupThousands dot_isDigit_false _)
      (n % 100 / 10) (n % 100 % 10) hd1 hd2
    rw [hsecond]
    exact ⟨cents_value n, cents_value n⟩
  · intro m
    have hb1 : isBlankInput (natDigits m) = false := by
      obtain ⟨c, hc⟩ := List.exists_mem_of_ne_nil _ (natDigits_ne_nil m)
      exact isBlankInput_eq_false_of_mem hc (isDigit_not_ws (natDigits_isDigit c hc))
    have hd1 : (filterDigits (natDigits m)).isEmpty = false := by
      rw [filterDigits_of_all_digits natDigits_isDigit]
      exact isEmpty_false_of_ne_nil (natDigits_ne_nil m)
    have hfirst := formatAdd_cop_eq (natDigits m) hb1 hd1
    have hparse : parseDigits (filterDigits (natDigits m)) = m := by
      rw [filterDigits_of_all_digits natDigits_isDigit, parseDigits_natDigits]
    have hb2 : isBlankInput (groupThousands '.' (parseDigits (filterDigits (natDigits m)))) =
        false := by
      obtain ⟨c, hc⟩ := List.exists_mem_of_ne_nil _
        (groupThousands_ne_nil '.' (parseDigits (filterDigits (natDigits m))))
      refine isBlankInput_eq_false_of_mem hc ?_
      rcases mem_groupThousands hc with h | h
      · subst h; rfl
      · exact isDigit_not_ws h
    have hd2 : (filterDigits (groupThousands '.'
        (parseDigits (filterDigits (natDigits m))))).isEmpty = false := by
      rw [filterDigits_groupThousands dot_isDigit_false]
      exact isEmpty_false_of_ne_nil (natDigits_ne_nil _)
    have hsecond := formatAdd_cop_eq _ hb2 hd2
    refine ⟨?_, ?_⟩
    · rw [hfirst, hparse]
    · rw [hfirst]
      show (formatCurrencyInputAdd
        (groupThousands '.' (parseDigits (filterDigits (natDigits m)))) "COP").raw = (m : ℚ)
      rw [hsecond]
      show ((parseDigits (filterDigits (groupThousands '.'
        (parseDigits (filterDigits (natDigits m)))))) : ℚ) = (m : ℚ)
      rw [filterDigits_groupThousands dot_isDigit_false, parseDigits_natDigits, hparse]

/-- Witness for C7 at 1250 cents (raw value 12.50) with currency EUR. -/
theorem C7_format_roundtrip_witness :
    (formatCurrencyInputAdd (centsInput 1250) "EUR").raw = (1250 : ℚ) / 100 :=
  (C7_format_roundtrip.1 1250 "EUR" (Or.inl rfl)).1

theorem sortCmp_add (so : String) (a b c : Tx) :
    sortCmp so a c = sortCmp so a b + sortCmp so b c := by
  unfold sortCmp
  split_ifs <;> push_cast <;> ring

theorem sortCmp_antisymm (so : String) (a b : Tx) :
    sortCmp so b a = -sortCmp so a b := by
  unfold sortCmp
  split_ifs <;> push_cast <;> ring

theorem sortLe_trans (so : String) (a b c : Tx)
    (hab : (decide (sortCmp so a b ≤ 0)) = true) (hbc : (decide (sortCmp so b c ≤ 0)) = true) :
    (decide (sortCmp so a c ≤ 0)) = true := by
  rw [decide_eq_true_eq] at hab hbc ⊢
  have h := sortCmp_add so a b c
  linarith

theorem sortLe_total (so : String) (a b : Tx) :
    ((decide (sortCmp so a b ≤ 0)) || (decide (sortCmp so b a ≤ 0))) = true := by
  rcases le_total (sortCmp so a b) 0 with h | h
  · simp [h]
  · have h' : sortCmp so b a ≤ 0 := by rw [sortCmp_antisymm]; linarith
    simp [h']

theorem subscribeSortLe_trans (a b c : Tx)
    (hab : subscribeSortLe a b = true) (hbc : subscribeSortLe b c = true) :
    subscribeSortLe a c = true := by
  unfold subscribeSortLe at *
  rw [decide_eq_true_eq] at hab hbc ⊢
  omega

theorem subscribeSortLe_total (a b : Tx) :
    (subscribeSortLe a b || subscribeSortLe b a) = true := by
  unfold subscribeSortLe
  rcases le_total (dateKey b) (dateKey a) with h | h
  · have : dateKey b - dateKey a ≤ 0 := by omega
    simp [this]
  · have : dateKey a - dateKey b ≤ 0 := by omega
    simp [this]

theorem sortCmp_newest (a b : Tx) :
    sortCmp "newest" a b = ((dateKey b - dateKey a : Int) : ℚ) := rfl

theorem sortCmp_oldest (a b : Tx) :
    sortCmp "oldest" a b = ((dateKey a - dateKey b : Int) : ℚ) := rfl

theorem sortCmp_highest (a b : Tx) :
    sortCmp "highest" a b = b.amount - a.amount := rfl

theorem sortCmp_lowest (a b : Tx) :
    sortCmp "lowest" a b = a.amount - b.amount := rfl

theorem sortTransactions_perm (so : String) (l : List Tx) :
    (sortTransactions so l).Perm l :=
  List.mergeSort_perm l _

theorem sortTransactions_pairwise (so : String) (l : List Tx) :
    (sortTransactions so l).Pairwise (fun a b => sortCmp so a b ≤ 0) := by
  have h : (l.mergeSort fun a b => decide (sortCmp so a b ≤ 0)).Pairwise
      (fun a b => (decide (sortCmp so a b ≤ 0)) = true) :=
    List.sorted_mergeSort (sortLe_trans so) (sortLe_total so) l
  exact h.imp (fun hab => by simpa using hab)

/-- C5 counterexample: under the `newest` sort a transaction with a
missing date (key 0) is placed before a transaction dated 1 millisecond
before the epoch, so a missing date is not treated as the earliest
possible date and does not sort last. -/
theorem C5_counterexample_null_date :
    sortTransactions "newest"
      [mkTx "old" "EXPENSE" 1 "CARD" (some (-1)), mkTx "nulldate" "EXPENSE" 1 "CARD" none] =
      [mkTx "nulldate" "EXPENSE" 1 "CARD" none, mkTx "old" "EXPENSE" 1 "CARD" (some (-1))] ∧
    (mkTx "nulldate" "EXPENSE" 1 "CARD" none).date = none := by
  refine ⟨?_, rfl⟩
  norm_num [sortTransactions, List.mergeSort, List.merge, sortCmp, dateKey, mkTx]

/-- C5 (amended): the pipeline sorts the filtered list with a stable
sort — `newest` descending and `oldest` ascending by `date?.toMillis()`,
`highest` descending and `lowest` ascending by amount; ties retain their
relative input order; a missing/null date is treated as timestamp 0 (the
Unix epoch), hence it sorts last under `newest` and first under `oldest`
only among transactions dated after the epoch; sorting by `highest` on
amounts [10, 50, 5] yields [50, 10, 5]. -/
theorem C5_sort_modes :
    (∀ l : List Tx,
      (sortTransactions "newest" l).Perm l ∧
      (sortTransactions "newest" l).Pairwise (fun a b => dateKey b ≤ dateKey a)) ∧
    (∀ l : List Tx,
      (sortTransactions "oldest" l).Perm l ∧
      (sortTransactions "oldest" l).Pairwise (fun a b => dateKey a ≤ dateKey b)) ∧
    (∀ l : List Tx,
      (sortTransactions "highest" l).Perm l ∧
      (sortTransactions "highest" l).Pairwise (fun a b => b.amount ≤ a.amount)) ∧
    (∀ l : List Tx,
      (sortTransactions "lowest" l).Perm l ∧
      (sortTransactions "lowest" l).Pairwise (fun a b => a.amount ≤ b.amount)) ∧
    (∀ (so : String) (a b : Tx) (l : List Tx), sortCmp so a b = 0 →
      [a, b].Sublist l → [a, b].Sublist (sortTransactions so l)) ∧
    (∀ t : Tx, t.date = none → dateKey t = 0) ∧
    sortTransactions "highest"
      [mkTx "a" "EXPENSE" 10 "CARD" (some 1), mkTx "b" "EXPENSE" 50 "CARD" (some 2),
       mkTx "c" "EXPENSE" 5 "CARD" (some 3)] =
      [mkTx "b" "EXPENSE" 50 "CARD" (some 2), mkTx "a" "EXPENSE" 10 "CARD" (some 1),
       mkTx "c" "EXPENSE" 5 "CARD" (some 3)] := by
  refine ⟨?_, ?_, ?_, ?_, ?_, ?_, ?_⟩
  · intro l
    refine ⟨sortTransactions_perm _ l, (sortTransactions_pairwise "newest" l).imp ?_⟩
    intro a b hab
    rw [sortCmp_newest] at hab
    have : (dateKey b - dateKey a : Int) ≤ 0 := by exact_mod_cast hab
    omega
  · intro l
    refine ⟨sortTransactions_perm _ l, (sortTransactions_pairwise "oldest" l).imp ?_⟩
    intro a b hab
    rw [sortCmp_oldest] at hab
    have : (dateKey a - dateKey b : Int) ≤ 0 := by exact_mod_cast hab
    omega
  · intro l
    refine ⟨sortTransactions_perm _ l, (sortTransactions_pairwise "highest" l).imp ?_⟩
    intro a b hab
    rw [sortCmp_highest] at hab
    linarith
  · intro l
    refine ⟨sortTransactions_perm _ l, (sortTransactions_pairwise "lowest" l).imp ?_⟩
    intro a b hab
    rw [sortCmp_lowest] at hab
    linarith
  · intro so a b l hab hsub
    refine List.pair_sublist_mergeSort (sortLe_trans so) (sortLe_total so) ?_ hsub
    rw [decide_eq_true_eq, hab]
  · intro t ht
    simp [dateKey, ht]
  · norm_num [sortTransactions, List.mergeSort, List.merge, sortCmp_highest, dateKey, mkTx]

/-- Witness for C5's amended statement: the stability conjunct applied to
two equal-date transactions in a concrete list. -/
theorem C5_sort_modes_witness :
    sortCmp "newest" (mkTx "x" "INCOME" 1 "CARD" (some 5))
        (mkTx "y" "INCOME" 2 "CARD" (some 5)) = 0 ∧
    [mkTx "x" "INCOME" 1 "CARD" (some 5), mkTx "y" "INCOME" 2 "CARD" (some 5)].Sublist
      (sortTransactions "newest"
        [mkTx "x" "INCOME" 1 "CARD" (some 5), mkTx "y" "INCOME" 2 "CARD" (some 5)]) := by
  have h0 : sortCmp "newest" (mkTx "x" "INCOME" 1 "CARD" (some 5))
      (mkTx "y" "INCOME" 2 "CARD" (some 5)) = 0 := by
    norm_num [sortCmp, dateKey, mkTx]
  exact ⟨h0, C5_sort_modes.2.2.2.2.1 "newest" _ _ _ h0 (List.Sublist.refl _)⟩

/-- C2: evaluation of the pipeline at a failing input for the claim.
With every criterion inactive except `filterPaymentMethod = "CARD"`, the
pipeline returns a CASH transaction unfiltered: the saved payment-method
criterion is never applied by `filteredTransactions`, so the pipeline is
an AND of only seven of the eight saved criteria. -/
theorem C2_payment_method_not_applied :
    applyFilters "INDIVIDUAL" cardOnlyFilters
      [mkTx "t1" "EXPENSE" 5 "CASH" (some 2), mkTx "t2" "EXPENSE" 7 "CARD" (some 1)] =
      [mkTx "t1" "EXPENSE" 5 "CASH" (some 2), mkTx "t2" "EXPENSE" 7 "CARD" (some 1)] ∧
    cardOnlyFilters.filterPaymentMethod = "CARD" ∧
    (mkTx "t1" "EXPENSE" 5 "CASH" (some 2)).paymentMethod ≠ "CARD" := by
  refine ⟨?_, rfl, by decide⟩
  norm_num [applyFilters, cardOnlyFilters, sortTransactions, List.mergeSort, List.merge,
    sortCmp_newest, dateKey, mkTx]

/-- C10: the snapshot handler of `subscribeToAccountTransactions`
delivers at most `limitCount` transactions to the callback: the
date-descending client-side sort (missing date treated as time 0)
followed by `slice(0, limitCount)`, so the delivered list is sorted
date-descending, and together with some remainder of only older-or-equal
transactions it is a permutation of the full mapped document set. -/
theorem C10_subscribe_delivers_at_most_limit :
    ∀ (accountIdParam : String) (docs : List (String × TxDoc)) (limitCount : Nat),
      (subscribeSnapshotDeliver accountIdParam docs limitCount).length ≤ limitCount ∧
      (subscribeSnapshotDeliver accountIdParam docs limitCount).Pairwise
        (fun a b => dateKey b ≤ dateKey a) ∧
      (∃ rest : List Tx,
        (subscribeSnapshotDeliver accountIdParam docs limitCount ++ rest).Perm
          (docs.map (fun p => docToTx accountIdParam p.1 p.2)) ∧
        ∀ x ∈ subscribeSnapshotDeliver accountIdParam docs limitCount, ∀ y ∈ rest,
          dateKey y ≤ dateKey x) ∧
      (∀ t : Tx, t.date = none → dateKey t = 0) := by
  intro accountIdParam docs limitCount
  have hkey : ∀ a b : Tx, subscribeSortLe a b = true → dateKey b ≤ dateKey a := by
    intro a b h
    unfold subscribeSortLe at h
    rw [decide_eq_true_eq] at h
    omega
  have hsorted : ((docs.map (fun p => docToTx accountIdParam p.1 p.2)).mergeSort
      subscribeSortLe).Pairwise (fun a b => subscribeSortLe a b = true) :=
    List.sorted_mergeSort subscribeSortLe_trans subscribeSortLe_total
      (docs.map (fun p => docToTx accountIdParam p.1 p.2))
  refine ⟨?_, ?_, ?_, ?_⟩
  · unfold subscribeSnapshotDeliver
    simp [List.length_take]
  · unfold subscribeSnapshotDeliver
    exact (hsorted.sublist (List.take_sublist _ _)).imp (fun h => hkey _ _ h)
  · refine ⟨((docs.map (fun p => docToTx accountIdParam p.1 p.2)).mergeSort
      subscribeSortLe).drop limitCount, ?_, ?_⟩
    · unfold subscribeSnapshotDeliver
      rw [List.take_append_drop]
      exact List.mergeSort_perm _ _
    · intro x hx y hy
      have hsplit : ((docs.map (fun p => docToTx accountIdParam p.1 p.2)).mergeSort
          subscribeSortLe).Pairwise (fun a b => subscribeSortLe a b = true) := hsorted
      rw [← List.take_append_drop limitCount ((docs.map
        (fun p => docToTx accountIdParam p.1 p.2)).mergeSort subscribeSortLe),
        List.pairwise_append] at hsplit
      exact hkey x y (hsplit.2.2 x hx y hy)
  · intro t ht
    simp [dateKey, ht]

/-- Witness for C10 with a two-document snapshot and limit 1. -/
theorem C10_subscribe_delivers_at_most_limit_witness :
    (subscribeSnapshotDeliver "acc1"
      [("d1", ⟨none, "u", "EXPENSE", 3, "c", none, some 7, none⟩),
       ("d2", ⟨none, "u", "INCOME", 4, "c", none, some 9, none⟩)] 1).length ≤ 1 :=
  (C10_subscribe_delivers_at_most_limit "acc1"
    [("d1", ⟨none, "u", "EXPENSE", 3, "c", none, some 7, none⟩),
     ("d2", ⟨none, "u", "INCOME", 4, "c", none, some 9, none⟩)] 1).1

/-- C8: whenever the backend reports a permission-denied error,
`getAccountTransactions` returns the empty list instead of propagating
the error, and the error handler of `subscribeToAccountTransactions`
invokes the callback with the empty list. -/
theorem C8_permission_denied_empty :
    ∀ (accountIdParam : String) (e : FsError), e.code = some "permission-denied" →
      getAccountTransactionsResult accountIdParam (.error e) = [] ∧
      subscribeErrorCallbackArg e = [] := by
  intro accountIdParam e he
  have hperm : isPermissionError e = true := by
    unfold isPermissionError
    rw [he]
    simp
  constructor
  · simp [getAccountTransactionsResult, hperm]
  · simp [subscribeErrorCallbackArg, hperm]

/-- Witness for C8 at a concrete permission-denied error. -/
theorem C8_permission_denied_empty_witness :
    getAccountTransactionsResult "acc1"
      (.error ⟨some "permission-denied", some "Missing or insufficient permissions."⟩) = [] :=
  (C8_permission_denied_empty "acc1"
    ⟨some "permission-denied", some "Missing or insufficient permissions."⟩ rfl).1

/-- C9: every account state reachable through `createAccount` followed by
any sequence of successful `joinAccount` / `joinAccountByCode` calls has
its owner in the member list: creation establishes
`memberIds = [ownerId]`, and joining only appends new members without
touching `ownerId`. -/
theorem C9_owner_always_member :
    ∀ s : AccountState, AccountReachable s → s.ownerId ∈ s.memberIds := by
  intro s h
  induction h with
  | created accountType userId => simp [createAccountState]
  | joined s userId next _ hok ih =>
    unfold joinAccountState at hok
    by_cases hmem : userId ∈ s.memberIds
    · rw [if_pos hmem] at hok
      exact absurd hok (by simp)
    · rw [if_neg hmem] at hok
      have : next = { s with memberIds := s.memberIds ++ [userId] } := by
        injection hok with h'
        exact h'.symm
      subst this
      simp only [List.mem_append]
      exact Or.inl ih
  | joinedByCode s userId next _ hok ih =>
    unfold joinAccountByCodeState at hok
    by_cases htype : s.type ≠ "GROUP"
    · rw [if_pos htype] at hok
      exact absurd hok (by simp)
    · rw [if_neg htype] at hok
      unfold joinAccountState at hok
      by_cases hmem : userId ∈ s.memberIds
      · rw [if_pos hmem] at hok
        exact absurd hok (by simp)
      · rw [if_neg hmem] at hok
        have : next = { s with memberIds := s.memberIds ++ [userId] } := by
          injection hok with h'
          exact h'.symm
        subst this
        simp only [List.mem_append]
        exact Or.inl ih

/-- Witness for C9: creating a GROUP account as alice and joining bob
yields a state whose owner alice is still a member. -/
theorem C9_owner_always_member_witness :
    (AccountState.mk "alice" "GROUP" ["alice", "bob"]).ownerId ∈
      (AccountState.mk "alice" "GROUP" ["alice", "bob"]).memberIds :=
  C9_owner_always_member _
    (AccountReachable.joined (createAccountState "GROUP" "alice") "bob"
      (AccountState.mk "alice" "GROUP" ["alice", "bob"])
      (AccountReachable.created "GROUP" "alice")
      (by simp [joinAccountState, createAccountState]))

theorem calculateBalance_foldl_shift (ts : List Tx) (b : ℚ) :
    ts.foldl
      (fun balance transaction =>
        if transaction.type = "INCOME" then balance + transaction.amount
        else if transaction.type = "EXPENSE" then balance - transaction.amount
        else balance)
      b = b + calculateBalance ts := by
  induction ts generalizing b with
  | nil => simp [calculateBalance]
  | cons t ts ih =>
    simp only [calculateBalance, List.foldl_cons]
    rw [ih, ih]
    split_ifs <;> ring

theorem calculateBalance_nil : calculateBalance [] = 0 := rfl

theorem calculateBalance_cons (t : Tx) (ts : List Tx) :
    calculateBalance (t :: ts) =
      (if t.type = "INCOME" then t.amount
       else if t.type = "EXPENSE" then -t.amount else 0) + calculateBalance ts := by
  simp only [calculateBalance, List.foldl_cons]
  rw [calculateBalance_foldl_shift]
  simp only [calculateBalance]
  split_ifs <;> ring

/-- C1: for every transaction list, `calculateBalance` equals the sum of
the INCOME amounts minus the sum of the EXPENSE amounts; a transaction
whose type is neither INCOME nor EXPENSE contributes nothing, and the
empty list yields 0. -/
theorem C1_calculateBalance_correct :
    (∀ ts : List Tx, calculateBalance ts = incomeSum ts - expenseSum ts) ∧
    calculateBalance [] = 0 ∧
    (∀ (t : Tx) (ts : List Tx), t.type ≠ "INCOME" → t.type ≠ "EXPENSE" →
      calculateBalance (t :: ts) = calculateBalance ts) := by
  refine ⟨?_, rfl, ?_⟩
  · intro ts
    induction ts with
    | nil => simp [calculateBalance, incomeSum, expenseSum]
    | cons t ts ih =>
      rw [calculateBalance_cons, ih]
      by_cases hI : t.type = "INCOME"
      · simp [incomeSum, expenseSum, List.filter_cons, hI]; ring
      · by_cases hE : t.type = "EXPENSE"
        · simp [incomeSum, expenseSum, List.filter_cons, hI, hE]; ring
        · simp [incomeSum, expenseSum, List.filter_cons, hI, hE]
  · intro t ts hI hE
    rw [calculateBalance_cons]
    simp [hI, hE]

/-- Witness for C1: a transaction of an unrecognized type TRANSFER
contributes nothing to the balance of a concrete list. -/
theorem C1_calculateBalance_correct_witness :
    calculateBalance [mkTx "w" "TRANSFER" 9 "CARD" none, mkTx "x" "INCOME" 3 "CARD" none] =
      calculateBalance [mkTx "x" "INCOME" 3 "CARD" none] :=
  C1_calculateBalance_correct.2.2 (mkTx "w" "TRANSFER" 9 "CARD" none)
    [mkTx "x" "INCOME" 3 "CARD" none] (by decide) (by decide)

end FinApp
